import Mathlib

/-!
Verification of the go-netdicom PDU codec (src/pdu/pdu.go), the C-STORE
helper (runCStoreOnAssociation) and the transfer-syntax helpers
(CanonicalTransferSyntaxUID / ParseTransferSyntaxUID), via a shallow
embedding in Lean 4.

Bytes are modelled as natural numbers (writers always emit values mod 256),
byte strings as lists of naturals.  Go errors are modelled as `Option String`
values (`some msg` = non-nil error).  The `dicomio.Reader` collaborator is
modelled as explicit state: remaining stream data, a running byte counter
and a stack of absolute read limits, matching the semantics the source
relies on (reads never cross the innermost limit; a read that fails consumes
nothing beyond what was available; a failed `ReadByte` consumes nothing).
-/

namespace NetDicom

/-- Big-endian encoding of a 16-bit value, as written by dicomio `WriteUInt16`
(values are truncated to 16 bits exactly as Go uint16 conversion does). -/
def u16be (n : Nat) : List Nat := [n / 256 % 256, n % 256]

/-- Big-endian encoding of a 32-bit value, as written by dicomio `WriteUInt32`. -/
def u32be (n : Nat) : List Nat :=
  [n / 16777216 % 256, n / 65536 % 256, n / 256 % 256, n % 256]

theorem u16be_length (n : Nat) : (u16be n).length = 2 := rfl

theorem u32be_length (n : Nat) : (u32be n).length = 4 := rfl

/-- The `dicomio.Reader` state: the bytes of the underlying stream not yet
consumed, the count of bytes consumed so far, the current absolute limit on
`bytesRead` (as installed by `NewReader` / `PushLimit`), and the stack of
outer limits saved by `PushLimit`. -/
structure Reader where
  data : List Nat
  bytesRead : Nat
  limit : Nat
  stack : List Nat
deriving Repr, DecidableEq

namespace Reader

/-- dicomio `BytesLeftUntilLimit`: how many more bytes may be read before the
current limit is hit. -/
def bytesLeft (d : Reader) : Nat := d.limit - d.bytesRead

/-- dicomio `ReadByte`: fails (consuming nothing) at the limit or at end of
stream; otherwise consumes one byte. -/
def readByte (d : Reader) : Option Nat × Reader :=
  if d.limit ≤ d.bytesRead then (none, d)
  else
    match d.data with
    | [] => (none, d)
    | b :: rest => (some b, { d with data := rest, bytesRead := d.bytesRead + 1 })

/-- Number of bytes a request for `n` bytes actually consumes: capped by the
current limit and by the bytes available in the stream. -/
def consumable (d : Reader) (n : Nat) : Nat :=
  min n (min d.bytesLeft d.data.length)

/-- Advance the reader over `k` consumed bytes. -/
def advance (d : Reader) (k : Nat) : Reader :=
  { d with data := d.data.drop k, bytesRead := d.bytesRead + k }

/-- dicomio `ReadBytes`/`ReadString` (via `io.ReadFull`): the returned buffer
always has length `n`, with any unread tail left as zero bytes; the error is
non-nil unless all `n` bytes were read.  Partially read bytes are consumed. -/
def readBytesGo (d : Reader) (n : Nat) : List Nat × Bool × Reader :=
  let k := d.consumable n
  (d.data.take k ++ List.replicate (n - k) 0, decide (k = n), d.advance k)

/-- dicomio `ReadBytes` as used where the error is checked: `some` iff all
`n` bytes were read. -/
def readBytes (d : Reader) (n : Nat) : Option (List Nat) × Reader :=
  let (buf, ok, d') := d.readBytesGo n
  (if ok then some buf else none, d')

/-- dicomio `Skip`: discard up to `n` bytes (errors are ignored by all
call-sites in pdu.go). -/
def skip (d : Reader) (n : Nat) : Reader := d.advance (d.consumable n)

/-- dicomio `ReadUInt16` (big endian on PDU readers); on failure Go leaves the
output value zero. -/
def readUInt16 (d : Reader) : Option Nat × Reader :=
  match d.readBytes 2 with
  | (some [b1, b0], d') => (some (b1 * 256 + b0), d')
  | (_, d') => (none, d')

/-- dicomio `ReadUInt32` (big endian); on failure Go leaves the output zero. -/
def readUInt32 (d : Reader) : Option Nat × Reader :=
  match d.readBytes 4 with
  | (some [b3, b2, b1, b0], d') =>
      (some (((b3 * 256 + b2) * 256 + b1) * 256 + b0), d')
  | (_, d') => (none, d')

/-- dicomio `PushLimit`: install a new limit `bytesRead + n`, saving the old
one.  The new limit never exceeds the old one ("no sub-decoder may read past
it"): a request going past the enclosing limit leaves the effective limit at
the enclosing limit. -/
def pushLimit (d : Reader) (n : Nat) : Reader :=
  { d with stack := d.limit :: d.stack, limit := min (d.bytesRead + n) d.limit }

/-- dicomio `PopLimit`: restore the limit saved by the matching `PushLimit`. -/
def popLimit (d : Reader) : Reader :=
  match d.stack with
  | [] => d
  | l :: s => { d with limit := l, stack := s }

end Reader

/-- Relation between a reader state and any state a pdu.go read primitive can
leave behind: the limit and limit stack are untouched, the total of consumed
plus buffered bytes is unchanged, and the consumed count never shrinks. -/
def ReaderStep (d e : Reader) : Prop :=
  e.limit = d.limit ∧ e.stack = d.stack ∧
    e.bytesRead + e.data.length = d.bytesRead + d.data.length ∧
    d.bytesRead ≤ e.bytesRead

/-- A reader whose buffered data reaches every installed limit: the
underlying stream is not truncated below any limit.  This is the situation
`ReadPDU` sets up when the transport delivers all `length` bytes of the
PDU. -/
def Reader.covered (d : Reader) : Prop :=
  d.limit ≤ d.bytesRead + d.data.length ∧
    ∀ l ∈ d.stack, l ≤ d.bytesRead + d.data.length

instance (d : Reader) : Decidable d.covered := by
  unfold Reader.covered
  exact inferInstance

/-- Item-type codes for sub-items (pdu.go `ItemType*` constants). -/
def ItemTypeApplicationContext : Nat := 0x10
def ItemTypePresentationContextRequest : Nat := 0x20
def ItemTypePresentationContextResponse : Nat := 0x21
def ItemTypeAbstractSyntax : Nat := 0x30
def ItemTypeTransferSyntax : Nat := 0x40
def ItemTypeUserInformation : Nat := 0x50
def ItemTypeUserInformationMaximumLength : Nat := 0x51
def ItemTypeImplementationClassUID : Nat := 0x52
def ItemTypeAsynchronousOperationsWindow : Nat := 0x53
def ItemTypeRoleSelection : Nat := 0x54
def ItemTypeImplementationVersionName : Nat := 0x55

/-- The discriminated union of DUL sub-items (pdu.go `SubItem` and its
implementations).  `presentationContext` and `userInformation` items hold
lists of `Option SubItem` because the decoding loops in pdu.go append the
result of `decodeSubItem` without a nil check, so Go slices of sub-items may
contain nil interface values (`none` here). -/
inductive SubItem where
  | applicationContext (name : List Nat)
  | abstractSyntax (name : List Nat)
  | transferSyntax (name : List Nat)
  | presentationContext (itemType : Nat) (contextID : Nat) (result : Nat)
      (items : List (Option SubItem))
  | userInformation (items : List (Option SubItem))
  | userInformationMaximumLength (maximumLengthReceived : Nat)
  | implementationClassUID (name : List Nat)
  | asynchronousOperationsWindow (maxOpsInvoked maxOpsPerformed : Nat)
  | roleSelection (sopClassUID : List Nat) (scuRole scpRole : Nat)
  | implementationVersionName (name : List Nat)
  | unsupported (itemType : Nat) (data : List Nat)

/-- The `PresentationDataValueItem` structure (pdu.go). -/
structure PresentationDataValueItem where
  contextID : Nat
  command : Bool
  last : Bool
  value : List Nat
deriving Repr, DecidableEq

/-- The seven PDU variants (pdu.go `PDU` implementations).  `aAssociate`
covers both A-ASSOCIATE-RQ and A-ASSOCIATE-AC via its `ptype` field, just as
the Go `AAssociate` struct does. -/
inductive PDU where
  | aAssociate (ptype : Nat) (protocolVersion : Nat)
      (calledAETitle callingAETitle : List Nat) (items : List SubItem)
  | aAssociateRj (result source reason : Nat)
  | pDataTf (items : List PresentationDataValueItem)
  | aReleaseRq
  | aReleaseRp
  | aAbort (source reason : Nat)

/-- pdu.go `encodeSubItemHeader`: type byte, one zero byte, big-endian u16
length. -/
def encodeSubItemHeader (itemType length : Nat) : List Nat :=
  [itemType % 256, 0] ++ u16be length

/-- pdu.go `encodeSubItemWithName`: header with the name length, then the raw
name bytes. -/
def encodeSubItemWithName (itemType : Nat) (name : List Nat) : List Nat :=
  encodeSubItemHeader itemType name.length ++ name

/-- pdu.go `SubItem.Write` for every variant.  The result is `none` exactly
where the Go code panics: `PresentationContextItem.Write` with an item type
other than 0x20/0x21, or a `Write` call on a nil sub-item inside a composite
item. -/
def SubItem.write : SubItem → Option (List Nat)
  | .applicationContext name =>
      some (encodeSubItemWithName ItemTypeApplicationContext name)
  | .abstractSyntax name =>
      some (encodeSubItemWithName ItemTypeAbstractSyntax name)
  | .transferSyntax name =>
      some (encodeSubItemWithName ItemTypeTransferSyntax name)
  | .presentationContext t cid _res items =>
      if t ≠ ItemTypePresentationContextRequest ∧
         t ≠ ItemTypePresentationContextResponse then none
      else
        match writeItems items with
        | none => none
        | some itemBytes =>
            some (encodeSubItemHeader t ((4 + itemBytes.length) % 65536) ++
              [cid % 256, 0, 0, 0] ++ itemBytes)
  | .userInformation items =>
      match writeItems items with
      | none => none
      | some itemBytes =>
          some (encodeSubItemHeader ItemTypeUserInformation
            (itemBytes.length % 65536) ++ itemBytes)
  | .userInformationMaximumLength v =>
      some (encodeSubItemHeader ItemTypeUserInformationMaximumLength 4 ++ u32be v)
  | .implementationClassUID name =>
      some (encodeSubItemWithName ItemTypeImplementationClassUID name)
  | .asynchronousOperationsWindow invoked performed =>
      some (encodeSubItemHeader ItemTypeAsynchronousOperationsWindow 4 ++
        u16be invoked ++ u16be performed)
  | .roleSelection sop scu scp =>
      some (encodeSubItemHeader ItemTypeRoleSelection
        ((2 + sop.length + 2) % 65536) ++
        u16be sop.length ++ sop ++ [scu % 256, scp % 256])
  | .implementationVersionName name =>
      some (encodeSubItemWithName ItemTypeImplementationVersionName name)
  | .unsupported t data =>
      some (encodeSubItemHeader t (data.length % 65536) ++ data)
where
  /-- Serialise a list of possibly-nil sub-items into one buffer, as the
  scratch-buffer loops in `UserInformationItem.Write` and
  `PresentationContextItem.Write` do; a nil item makes Go panic. -/
  writeItems : List (Option SubItem) → Option (List Nat)
    | [] => some []
    | none :: _ => none
    | some s :: rest =>
        match s.write, writeItems rest with
        | some b, some bs => some (b ++ bs)
        | _, _ => none

/-- pdu.go `fillString`: pad with spaces (0x20) up to `length`; strings longer
than `length` are truncated at index 16 unconditionally. -/
def fillString (v : List Nat) (length : Nat) : List Nat :=
  if length < v.length then v.take 16
  else v ++ List.replicate (length - v.length) 0x20

/-- pdu.go `PresentationDataValueItem.Write`: u32 length `2 + len(Value)`,
context-ID byte, header byte (bit 0 = command, bit 1 = last), then the value
bytes. -/
def PresentationDataValueItem.write (v : PresentationDataValueItem) : List Nat :=
  u32be ((2 + v.value.length) % 4294967296) ++
  [v.contextID % 256,
   (if v.command then 1 else 0) + (if v.last then 2 else 0)] ++
  v.value

/-- Serialisation of a plain (nil-free) list of sub-items, used by
`AAssociate.WritePayload`. -/
def writeSubItemList : List SubItem → Option (List Nat)
  | [] => some []
  | s :: rest =>
      match s.write, writeSubItemList rest with
      | some b, some bs => some (b ++ bs)
      | _, _ => none

/-- pdu.go `WritePayload` for every PDU variant.  `none` marks the panics in
`AAssociate.WritePayload` (zero type or empty AE title) and any panicking
sub-item write. -/
def PDU.writePayload : PDU → Option (List Nat)
  | .aAssociate t version called calling items =>
      if t = 0 ∨ called = [] ∨ calling = [] then none
      else
        match writeSubItemList items with
        | none => none
        | some itemBytes =>
            some (u16be version ++ [0, 0] ++ fillString called 16 ++
              fillString calling 16 ++ List.replicate 32 0 ++ itemBytes)
  | .aAssociateRj result source reason =>
      some [0, result % 256, source % 256, reason % 256]
  | .pDataTf items => some (items.flatMap PresentationDataValueItem.write)
  | .aReleaseRq => some [0, 0, 0, 0]
  | .aReleaseRp => some [0, 0, 0, 0]
  | .aAbort source reason => some [0, 0, source % 256, reason % 256]

/-- The PDU type byte chosen by the switch in `EncodePDU`. -/
def PDU.typeByte : PDU → Nat
  | .aAssociate t _ _ _ _ => t % 256
  | .aAssociateRj _ _ _ => 3
  | .pDataTf _ => 4
  | .aReleaseRq => 5
  | .aReleaseRp => 6
  | .aAbort _ _ => 7

/-- pdu.go `EncodePDU`: serialise the payload, then prepend the six-byte
header `type, 0, length:u32 big-endian`.  `none` where the payload write
panics. -/
def EncodePDU (pdu : PDU) : Option (List Nat) :=
  match pdu.writePayload with
  | none => none
  | some payload =>
      some (pdu.typeByte :: 0 :: u32be (payload.length % 4294967296) ++ payload)

/-- pdu.go `decodeSubItemWithName`: read `length` bytes as the name (a read
error is only logged; the partially-filled buffer is still returned). -/
def decodeSubItemWithName (d : Reader) (length : Nat) : List Nat × Reader :=
  let (buf, _, d') := d.readBytesGo length
  (buf, d')

/-- pdu.go `decodeUserInformationMaximumLengthItem`: reads one u32; a wrong
declared length or read error is only logged. -/
def decodeUserInformationMaximumLengthItem (d : Reader) (_length : Nat) :
    SubItem × Reader :=
  let (rtn?, d') := d.readUInt32
  (.userInformationMaximumLength (rtn?.getD 0), d')

/-- pdu.go `decodeAsynchronousOperationsWindowSubItem`: reads a single u16 and
stores it in BOTH `MaxOpsInvoked` and `MaxOpsPerformed`; returns nil on a read
error. -/
def decodeAsynchronousOperationsWindowSubItem (d : Reader) (_length : Nat) :
    Option SubItem × Reader :=
  match d.readUInt16 with
  | (none, d') => (none, d')
  | (some rtn, d') => (some (.asynchronousOperationsWindow rtn rtn), d')

/-- pdu.go `decodeRoleSelectionSubItem`: u16 UID length, UID string, SCU and
SCP role bytes; read errors are only logged (values default to zero). -/
def decodeRoleSelectionSubItem (d : Reader) (_length : Nat) : SubItem × Reader :=
  let (uidLen?, d1) := d.readUInt16
  let (sop, _, d2) := d1.readBytesGo (uidLen?.getD 0)
  let (scu?, d3) := d2.readByte
  let (scp?, d4) := d3.readByte
  (.roleSelection sop (scu?.getD 0) (scp?.getD 0), d4)

mutual

/-- pdu.go `decodeSubItem`: read the `{type, reserved, length:u16}` header and
dispatch on the type byte; a header read error or an unknown type yields nil
(the unknown type is NOT preserved — the function returns nil and the
declared payload stays unconsumed).  The `fuel` argument bounds the number of
loop iterations performed by the nested composite decoders; `none` means the
bound was exhausted. -/
def decodeSubItem (fuel : Nat) (d : Reader) : Option (Option SubItem × Reader) :=
  match d.readByte with
  | (none, d') => some (none, d')
  | (some itemType, d0) =>
    let d1 := d0.skip 1
    match d1.readUInt16 with
    | (none, d2) => some (none, d2)
    | (some length, d2) =>
      if itemType = ItemTypeApplicationContext then
        let (n, d3) := decodeSubItemWithName d2 length
        some (some (.applicationContext n), d3)
      else if itemType = ItemTypeAbstractSyntax then
        let (n, d3) := decodeSubItemWithName d2 length
        some (some (.abstractSyntax n), d3)
      else if itemType = ItemTypeTransferSyntax then
        let (n, d3) := decodeSubItemWithName d2 length
        some (some (.transferSyntax n), d3)
      else if itemType = ItemTypePresentationContextRequest ∨
              itemType = ItemTypePresentationContextResponse then
        decodePresentationContextItem fuel d2 itemType length
      else if itemType = ItemTypeUserInformation then
        decodeUserInformationItem fuel d2 length
      else if itemType = ItemTypeUserInformationMaximumLength then
        let (item, d3) := decodeUserInformationMaximumLengthItem d2 length
        some (some item, d3)
      else if itemType = ItemTypeImplementationClassUID then
        let (n, d3) := decodeSubItemWithName d2 length
        some (some (.implementationClassUID n), d3)
      else if itemType = ItemTypeAsynchronousOperationsWindow then
        let (item, d3) := decodeAsynchronousOperationsWindowSubItem d2 length
        some (item, d3)
      else if itemType = ItemTypeRoleSelection then
        let (item, d3) := decodeRoleSelectionSubItem d2 length
        some (some item, d3)
      else if itemType = ItemTypeImplementationVersionName then
        let (n, d3) := decodeSubItemWithName d2 length
        some (some (.implementationVersionName n), d3)
      else
        some (none, d2)
termination_by (fuel, 2)

/-- pdu.go `decodeUserInformationItem`: push the declared length as a limit,
run the sub-item loop, pop the limit.  The item list may contain nils. -/
def decodeUserInformationItem (fuel : Nat) (d : Reader) (length : Nat) :
    Option (Option SubItem × Reader) :=
  match decodeSubItemLoop fuel (d.pushLimit length) [] with
  | none => none
  | some (items, d') => some (some (.userInformation items), d'.popLimit)
termination_by (fuel, 1)

/-- pdu.go `decodePresentationContextItem`: push the declared length, read the
context-ID byte (error ignored), a reserved byte, the result byte (error only
logged) and another reserved byte, then run the sub-item loop.  An even
context ID is only logged; the item is returned regardless. -/
def decodePresentationContextItem (fuel : Nat) (d : Reader)
    (itemType length : Nat) : Option (Option SubItem × Reader) :=
  let d0 := d.pushLimit length
  let (cid?, d1) := d0.readByte
  let d2 := d1.skip 1
  let (pcr?, d3) := d2.readByte
  let d4 := d3.skip 1
  match decodeSubItemLoop fuel d4 [] with
  | none => none
  | some (items, d5) =>
      some (some (.presentationContext itemType (cid?.getD 0) (pcr?.getD 0) items),
        d5.popLimit)
termination_by (fuel, 1)

/-- The `for d.BytesLeftUntilLimit() > 0` loop shared verbatim by
`decodeUserInformationItem` and `decodePresentationContextItem`: while bytes
remain below the current limit, decode one sub-item and append the result
(even when it is nil). -/
def decodeSubItemLoop (fuel : Nat) (d : Reader) (acc : List (Option SubItem)) :
    Option (List (Option SubItem) × Reader) :=
  if d.limit ≤ d.bytesRead then some (acc, d)
  else
    match fuel with
    | 0 => none
    | fuel + 1 =>
      match decodeSubItem fuel d with
      | none => none
      | some (item, d') => decodeSubItemLoop fuel d' (acc ++ [item])
termination_by (fuel, 0)

end

/-- The sub-item loop inside pdu.go `decodeAAssociate`: unlike the composite
sub-item loops, it breaks as soon as `decodeSubItem` returns nil. -/
def decodeAAssociateLoop (fuel : Nat) (d : Reader) (acc : List SubItem) :
    Option (List SubItem × Reader) :=
  if d.limit ≤ d.bytesRead then some (acc, d)
  else
    match fuel with
    | 0 => none
    | fuel + 1 =>
      match decodeSubItem fuel d with
      | none => none
      | some (none, d') => some (acc, d')
      | some (some item, d') => decodeAAssociateLoop fuel d' (acc ++ [item])

/-- pdu.go `decodeAAssociate`: protocol version (error ignored), 2 reserved
bytes, two 16-byte AE titles (errors ignored), 32 reserved bytes, then the
sub-item loop.  Empty AE titles are only logged. -/
def decodeAAssociate (fuel : Nat) (d : Reader) (pduType : Nat) :
    Option (PDU × Reader) :=
  let (ver?, d1) := d.readUInt16
  let d2 := d1.skip 2
  let (called, _, d3) := d2.readBytesGo 16
  let (calling, _, d4) := d3.readBytesGo 16
  let d5 := d4.skip 32
  match decodeAAssociateLoop fuel d5 [] with
  | none => none
  | some (items, d6) =>
      some (.aAssociate pduType (ver?.getD 0) called calling items, d6)

/-- Divergence of the Go `for d.BytesLeftUntilLimit() > 0` loop in
`decodeUserInformationItem`, expressed in the fuel embedding: the call
completes under no fuel bound at all, i.e. the loop never exits. -/
def decodeUserInformationItemDiverges (d : Reader) (length : Nat) : Prop :=
  ∀ fuel, decodeUserInformationItem fuel d length = none

/-- pdu.go `decodeAAssociateRj`: one reserved byte, then result, source and
reason bytes (read errors only logged, leaving the zero value). -/
def decodeAAssociateRj (d : Reader) : PDU × Reader :=
  let d0 := d.skip 1
  let (result?, d1) := d0.readByte
  let (source?, d2) := d1.readByte
  let (reason?, d3) := d2.readByte
  (.aAssociateRj (result?.getD 0) (source?.getD 0) (reason?.getD 0), d3)

/-- pdu.go `decodeAAbort`: two reserved bytes, then source and reason; a read
error makes the function return nil. -/
def decodeAAbort (d : Reader) : Option PDU × Reader :=
  let d0 := d.skip 2
  match d0.readByte with
  | (none, d1) => (none, d1)
  | (some source, d1) =>
    match d1.readByte with
    | (none, d2) => (none, d2)
    | (some reason, d2) => (some (.aAbort source reason), d2)

/-- pdu.go `decodeAReleaseRq`: skip four reserved bytes. -/
def decodeAReleaseRq (d : Reader) : PDU × Reader := (.aReleaseRq, d.skip 4)

/-- pdu.go `decodeAReleaseRp`: skip four reserved bytes. -/
def decodeAReleaseRp (d : Reader) : PDU × Reader := (.aReleaseRp, d.skip 4)

/-- pdu.go `ReadPresentationDataValueItem`: u32 length, context-ID byte,
header byte (bit 0 = command, bit 1 = last), then `length - 2` value bytes
(computed in Go uint32 arithmetic, so a declared length below 2 wraps
around); read errors are only logged. -/
def ReadPresentationDataValueItem (d : Reader) :
    PresentationDataValueItem × Reader :=
  let (len?, d1) := d.readUInt32
  let length := len?.getD 0
  let (cid?, d2) := d1.readByte
  let (hdr?, d3) := d2.readByte
  let header := hdr?.getD 0
  let (value, _, d4) := d3.readBytesGo ((length + 4294967294) % 4294967296)
  ({ contextID := cid?.getD 0, command := header.testBit 0,
     last := header.testBit 1, value := value }, d4)

/-- The `for d.BytesLeftUntilLimit() > 0` loop of pdu.go `decodePDataTf`. -/
def decodePDataTfLoop (fuel : Nat) (d : Reader)
    (acc : List PresentationDataValueItem) :
    Option (List PresentationDataValueItem × Reader) :=
  if d.limit ≤ d.bytesRead then some (acc, d)
  else
    match fuel with
    | 0 => none
    | fuel + 1 =>
      let (item, d') := ReadPresentationDataValueItem d
      decodePDataTfLoop fuel d' (acc ++ [item])

/-- pdu.go `decodePDataTf`: read PDV items until the limit is reached. -/
def decodePDataTf (fuel : Nat) (d : Reader) : Option (PDU × Reader) :=
  match decodePDataTfLoop fuel d [] with
  | none => none
  | some (items, d') => some (.pDataTf items, d')

/-- pdu.go `ReadPDU`: read the six-byte header `{type, reserved, length:u32}`
from the raw stream, reject lengths at or above `2 * maxPDUSize`, then hand a
length-limited reader over the next `length` stream bytes to the per-type
decoder.  The result models the Go `(PDU, error)` pair; the outer `Option` is
`none` when a decoding loop exceeded `fuel` iterations.

Note the leftover-bytes branch: when the type-specific decoder returns
without consuming everything below the limit, the Go code executes
`return nil, err` where `err` still holds the nil error of the last
successful `binary.Read` — both results are nil. -/
def ReadPDU (fuel : Nat) (input : List Nat) (maxPDUSize : Nat) :
    Option (Option PDU × Option String) :=
  match input with
  | pduType :: _reserved :: b3 :: b2 :: b1 :: b0 :: rest =>
    let length := ((b3 * 256 + b2) * 256 + b1) * 256 + b0
    if maxPDUSize % 4294967296 * 2 % 4294967296 ≤ length then
      some (none, some ("Invalid length " ++ toString length ++
        "; it is much larger than max PDU size of " ++ toString maxPDUSize))
    else
      let d : Reader :=
        { data := rest.take length, bytesRead := 0, limit := length, stack := [] }
      let decoded : Option (Option PDU × Reader) :=
        if pduType = 1 ∨ pduType = 2 then
          (decodeAAssociate fuel d pduType).map (fun p => (some p.1, p.2))
        else if pduType = 3 then
          some (some (decodeAAssociateRj d).1, (decodeAAssociateRj d).2)
        else if pduType = 7 then
          some (decodeAAbort d)
        else if pduType = 4 then
          (decodePDataTf fuel d).map (fun p => (some p.1, p.2))
        else if pduType = 5 then
          some (some (decodeAReleaseRq d).1, (decodeAReleaseRq d).2)
        else if pduType = 6 then
          some (some (decodeAReleaseRp d).1, (decodeAReleaseRp d).2)
        else
          some (none, d)
      match decoded with
      | none => none
      | some (none, _) =>
          some (none, some ("ReadPDU: unknown message type " ++ toString pduType))
      | some (some pdu, d') =>
          if 0 < d'.bytesLeft then some (none, none)
          else some (some pdu, none)
  | _ => some (none, some "EOF")

/-! ## The C-STORE helper (cstore.go `runCStoreOnAssociation`) -/

/-- A DICOM tag, the external `dicomtag.Tag` collaborator: a (group, element)
pair. -/
structure Tag where
  group : Nat
  element : Nat
deriving Repr, DecidableEq

/-- The tag `dicomtag.MediaStorageSOPInstanceUID` (0002,0003). -/
def MediaStorageSOPInstanceUID : Tag := ⟨2, 3⟩

/-- The tag `dicomtag.MediaStorageSOPClassUID` (0002,0002). -/
def MediaStorageSOPClassUID : Tag := ⟨2, 2⟩

/-- One dataset element as `runCStoreOnAssociation` sees it: a tag and the
`[]string` value produced by `elem.Value.GetValue()`. -/
structure DicomElement where
  tag : Tag
  value : List String

/-- The external `dicom.Dataset` collaborator: its list of elements. -/
structure Dataset where
  elements : List DicomElement

/-- Outcome of a Go call returning `error`: `ok` for a nil error, `err` for a
non-nil error with the message, `crash` for a panic (a failed `doassert`, a
failed type assertion, or indexing an empty `[]string`). -/
inductive GoResult (α : Type) where
  | ok (val : α)
  | err (msg : String)
  | crash

/-- The `getElement` closure in `runCStoreOnAssociation`:
`ds.FindElementByTag` is a linear search; a missing tag is an error and an
element whose `[]string` value is empty makes the `[0]` index panic. -/
def getElement (ds : Dataset) (tag : Tag) : GoResult String :=
  match ds.elements.find? (fun e => e.tag = tag) with
  | none => .err "element not found"
  | some e =>
    match e.value with
    | [] => .crash
    | s :: _ => .ok s

/-- Modelled from the spec: one entry of the context-manager table that is
missing from the sources (only pdu.go and cstore.go are available) — "both
sides hold a table keyed by context id with value
(abstractSyntaxUID, transferSyntaxUID, accepted?)". -/
structure contextManagerEntry where
  contextID : Nat
  abstractSyntaxUID : String
  transferSyntaxUID : String

/-- Modelled from the spec: the context manager owned by one association,
with the label used in diagnostics. -/
structure contextManager where
  label : String
  contexts : List contextManagerEntry

/-- Modelled from the spec: `byAbstractSyntax(uid) → contextID` — the
context-manager lookup used before sending C-STORE; "a not-found on either
side is a user-visible error (SOP class not negotiated)". -/
def lookupByAbstractSyntaxUID (cm : contextManager) (uid : String) :
    GoResult contextManagerEntry :=
  match cm.contexts.find? (fun e => e.abstractSyntaxUID = uid) with
  | some e => .ok e
  | none => .err ("SOP class not negotiated: " ++ uid)

/-- The `dimse.Status` word: a 16-bit status code plus the error comment. -/
structure Status where
  status : Nat
  errorComment : String

/-- The `dimse.CStoreRq` command as constructed by `runCStoreOnAssociation`. -/
structure CStoreRq where
  affectedSOPClassUID : String
  messageID : Nat
  commandDataSetType : Nat
  affectedSOPInstanceUID : String

/-- The `dimse.CStoreRsp` message, the response the helper waits for. -/
structure CStoreRsp where
  affectedSOPClassUID : String
  messageIDBeingRespondedTo : Nat
  commandDataSetType : Nat
  affectedSOPInstanceUID : String
  status : Status

/-- Modelled from the spec: the `String()` rendering of a `dimse.CStoreRsp`
(dimse.go is missing from the sources).  The spec requires a non-success
status to be surfaced "with the status word preserved", and the test
`TestStoreFailure0` requires the error comment ("Foohah") to appear in the
message, so the rendering includes the status code and the error comment. -/
def CStoreRsp.render (r : CStoreRsp) : String :=
  "CStoreRsp(status: " ++ toString r.status.status ++ " " ++
    r.status.errorComment ++ ")"

/-- The commands an upcall event can carry, as far as this helper inspects
them: a C-STORE response, or anything else (which fails the type
assertion). -/
inductive DimseCommand where
  | cstoreRsp (rsp : CStoreRsp)
  | otherCommand

/-- The `upcallEventType` discriminator: this helper only distinguishes data events. -/
inductive UpcallEventType where
  | data
  | handshakeCompleted

/-- An event received on the upcall channel. -/
structure upcallEvent where
  eventType : UpcallEventType
  command : Option DimseCommand

/-- The `stateEventDIMSEPayload` record as filled in by `runCStoreOnAssociation`. -/
structure stateEventDIMSEPayload where
  abstractSyntaxName : String
  command : CStoreRq
  data : List Nat

/-- The `stateEvent` sent on the downcall channel (`event: evt09`). -/
structure stateEvent where
  event : Nat
  dimsePayload : stateEventDIMSEPayload

/-- cstore.go `runCStoreOnAssociation`.  The upcall channel is modelled as
the list of events that will be received (an empty list means the channel is
closed); the downcall channel as the list of events the call sends, returned
alongside the Go error result.  `enc` stands for the external dataset writer
(`dicom.NewWriter` on all elements) producing the C-STORE payload bytes.

The Go control flow in order: look up the SOP instance UID and the SOP class
UID in the dataset (each failure returns before anything is sent), look up
the presentation context by abstract syntax (failure returns before anything
is sent), send the evt09 state event, then block on the upcall channel; a
closed channel is an error, a response with non-zero status is an error
carrying `resp.String()`, and a zero status returns nil. -/
def runCStoreOnAssociation (enc : Dataset → List Nat)
    (upcallCh : List upcallEvent) (cm : contextManager)
    (messageID : Nat) (ds : Dataset) : List stateEvent × GoResult Unit :=
  match getElement ds MediaStorageSOPInstanceUID with
  | .crash => ([], .crash)
  | .err e => ([], .err ("dicom.cstore: data lacks SOPInstanceUID: " ++ e))
  | .ok sopInstanceUID =>
    match getElement ds MediaStorageSOPClassUID with
    | .crash => ([], .crash)
    | .err e =>
        ([], .err ("dicom.cstore: data lacks MediaStorageSOPClassUID: " ++ e))
    | .ok sopClassUID =>
      match lookupByAbstractSyntaxUID cm sopClassUID with
      | .crash => ([], .crash)
      | .err e => ([], .err e)
      | .ok _context =>
        let sent : List stateEvent :=
          [{ event := 9,
             dimsePayload :=
               { abstractSyntaxName := sopClassUID,
                 command :=
                   { affectedSOPClassUID := sopClassUID,
                     messageID := messageID,
                     commandDataSetType := 1,
                     affectedSOPInstanceUID := sopInstanceUID },
                 data := enc ds } }]
        match upcallCh with
        | [] => (sent, .err ("dicom.cstore(" ++ cm.label ++
            "): Connection closed while waiting for C-STORE response"))
        | event :: _ =>
          match event.eventType with
          | .handshakeCompleted => (sent, .crash)
          | .data =>
            match event.command with
            | none => (sent, .crash)
            | some .otherCommand => (sent, .crash)
            | some (.cstoreRsp resp) =>
              if resp.status.status ≠ 0 then
                (sent, .err ("dicom.cstore(" ++ cm.label ++ "): failed: " ++
                  resp.render))
              else (sent, .ok ())

/-! ## Transfer-syntax helpers (transfersyntax source file) -/

/-- The constant `dicomuid.ImplicitVRLittleEndian`. -/
def ImplicitVRLittleEndian : String := "1.2.840.10008.1.2"

/-- The constant `dicomuid.ExplicitVRLittleEndian`. -/
def ExplicitVRLittleEndian : String := "1.2.840.10008.1.2.1"

/-- The constant `dicomuid.ExplicitVRBigEndian`. -/
def ExplicitVRBigEndian : String := "1.2.840.10008.1.2.2"

/-- The constant `dicomuid.DeflatedExplicitVRLittleEndian`. -/
def DeflatedExplicitVRLittleEndian : String := "1.2.840.10008.1.2.1.99"

/-- The constant `dicomuid.TypeTransferSyntax`, the UID-dictionary entry kind checked by
`CanonicalTransferSyntaxUID`. -/
def TypeTransferSyntax : String := "Transfer Syntax"

/-- The part of a `dicomuid.Lookup` dictionary entry that
`CanonicalTransferSyntaxUID` inspects. -/
structure UIDInfo where
  uidType : String

/-- The `IsImplicitVR` enumeration with its three Go constants. -/
inductive IsImplicitVR where
  | implicitVR
  | explicitVR
  | unknownVR
deriving Repr, DecidableEq

/-- The `binary.ByteOrder` collaborator: the two concrete byte orders the Go standard library
provides. -/
inductive ByteOrder where
  | littleEndian
  | bigEndian
deriving Repr, DecidableEq

/-- The function `CanonicalTransferSyntaxUID`, parametrised by the external UID registry
(`dicomuid.Lookup`): one of the four standard transfer syntaxes is returned
unchanged; any other UID is looked up and, if it is a transfer syntax,
canonicalised to explicit-VR little-endian. -/
def CanonicalTransferSyntaxUID (lookup : String → Except String UIDInfo)
    (uid : String) : Except String String :=
  if uid = ImplicitVRLittleEndian ∨ uid = ExplicitVRLittleEndian ∨
     uid = ExplicitVRBigEndian ∨ uid = DeflatedExplicitVRLittleEndian then
    .ok uid
  else
    match lookup uid with
    | .error e => .error e
    | .ok entry =>
      if entry.uidType ≠ TypeTransferSyntax then
        .error ("dicom.CanonicalTransferSyntaxUID: " ++ uid ++
          " is not a transfer syntax")
      else
        .ok ExplicitVRLittleEndian

/-- The function `ParseTransferSyntaxUID`: canonicalise, then map the canonical UID to a
byte order and VR mode.  The result is `none` exactly on the `default` branch
of the Go switch, which panics. -/
def ParseTransferSyntaxUID (lookup : String → Except String UIDInfo)
    (uid : String) : Option (Except String (ByteOrder × IsImplicitVR)) :=
  match CanonicalTransferSyntaxUID lookup uid with
  | .error e => some (.error e)
  | .ok canonical =>
    if canonical = ImplicitVRLittleEndian then
      some (.ok (.littleEndian, .implicitVR))
    else if canonical = DeflatedExplicitVRLittleEndian ∨
            canonical = ExplicitVRLittleEndian then
      some (.ok (.littleEndian, .explicitVR))
    else if canonical = ExplicitVRBigEndian then
      some (.ok (.bigEndian, .explicitVR))
    else
      none

/-! ## Reader helper lemmas -/

namespace Reader

/-- Total bytes the reader will ever see: consumed plus still buffered.
Constant through every reader operation. -/
def avail (d : Reader) : Nat := d.bytesRead + d.data.length

theorem readByte_cons (d : Reader) (b : Nat) (rest : List Nat)
    (hdata : d.data = b :: rest) (hlim : d.bytesRead < d.limit) :
    d.readByte = (some b,
      { d with data := rest, bytesRead := d.bytesRead + 1 }) := by
  simp [readByte, hdata, Nat.not_le.mpr hlim]

theorem skip_exact (d : Reader) (n : Nat) (hlim : d.bytesRead + n ≤ d.limit)
    (hdata : n ≤ d.data.length) :
    d.skip n = { d with data := d.data.drop n, bytesRead := d.bytesRead + n } := by
  have hc : d.consumable n = n := by
    simp [consumable, bytesLeft]
    omega
  simp [skip, hc, advance]

theorem readBytes_exact (d : Reader) (n : Nat)
    (hlim : d.bytesRead + n ≤ d.limit) (hdata : n ≤ d.data.length) :
    d.readBytes n = (some (d.data.take n),
      { d with data := d.data.drop n, bytesRead := d.bytesRead + n }) := by
  have hc : d.consumable n = n := by
    simp [consumable, bytesLeft]
    omega
  simp [readBytes, readBytesGo, hc, advance]

theorem readBytesGo_exact (d : Reader) (n : Nat)
    (hlim : d.bytesRead + n ≤ d.limit) (hdata : n ≤ d.data.length) :
    d.readBytesGo n = (d.data.take n, true,
      { d with data := d.data.drop n, bytesRead := d.bytesRead + n }) := by
  have hc : d.consumable n = n := by
    simp [consumable, bytesLeft]
    omega
  simp [readBytesGo, hc, advance]

theorem readUInt16_cons (d : Reader) (b1 b0 : Nat) (rest : List Nat)
    (hdata : d.data = b1 :: b0 :: rest) (hlim : d.bytesRead + 2 ≤ d.limit) :
    d.readUInt16 = (some (b1 * 256 + b0),
      { d with data := rest, bytesRead := d.bytesRead + 2 }) := by
  have h := readBytes_exact d 2 hlim (by simp [hdata])
  simp [hdata] at h
  simp [readUInt16, h]

theorem readUInt32_cons (d : Reader) (b3 b2 b1 b0 : Nat) (rest : List Nat)
    (hdata : d.data = b3 :: b2 :: b1 :: b0 :: rest)
    (hlim : d.bytesRead + 4 ≤ d.limit) :
    d.readUInt32 = (some (((b3 * 256 + b2) * 256 + b1) * 256 + b0),
      { d with data := rest, bytesRead := d.bytesRead + 4 }) := by
  have h := readBytes_exact d 4 hlim (by simp [hdata])
  simp [hdata] at h
  simp [readUInt32, h]

end Reader

theorem u16be_decode (n : Nat) : n / 256 % 256 * 256 + n % 256 = n % 65536 := by
  omega

theorem u32be_decode (n : Nat) :
    ((n / 16777216 % 256 * 256 + n / 65536 % 256) * 256 + n / 256 % 256) * 256 +
      n % 256 = n % 4294967296 := by
  omega

/-! ## Claim C1 -/

/-- Claim C1 (code bug): the spec demands that leftover bytes inside the PDU
length limit after the type-specific decoder completes make `ReadPDU` return
a non-nil error, never a nil PDU together with a nil error.  The code instead
executes `return nil, err` with `err` still nil.  Failing input: an
A-RELEASE-RQ PDU whose declared length is 5 — the decoder consumes four
reserved bytes, one byte is left below the limit, and `ReadPDU` returns
`(nil, nil)`. -/
theorem C1_readPDU_leftover_returns_nil_nil :
    ReadPDU 100 [5, 0, 0, 0, 0, 5, 0, 0, 0, 0, 0] 100 = some (none, none) := by
  rfl

/-! ## Claim C2 -/

/-- Claim C2 counterexample: `decodeSubItem` on a sub-item with unrecognised
type byte 0x60 and a two-byte payload returns nil — not a
`SubItemUnsupported` carrying the payload — and leaves the payload
unconsumed. -/
theorem C2_cex_unknown_type_yields_nil :
    decodeSubItem 100 ⟨[0x60, 0, 0, 2, 0xAA, 0xBB], 0, 6, []⟩ =
      some (none, ⟨[0xAA, 0xBB], 4, 6, []⟩) := by
  simp only [decodeSubItem]
  rfl

/-- Claim C2, amended: when `decodeSubItem` reads a sub-item header whose
type byte is not one of the eleven recognised types, it returns nil — the
item is discarded, not preserved as an opaque `SubItemUnsupported` value —
and only the four header bytes are consumed, the declared payload remaining
in the stream.  (The `SubItemUnsupported` container exists and its `Write`
echoes `{type, bytes}` verbatim, but `decodeSubItem` never constructs it.) -/
theorem C2_decodeSubItem_unknown_type_discarded (fuel t b hi lo : Nat)
    (rest : List Nat) (d : Reader)
    (hdata : d.data = t :: b :: hi :: lo :: rest)
    (hlim : d.bytesRead + 4 ≤ d.limit)
    (ht : t ∉ ([0x10, 0x20, 0x21, 0x30, 0x40, 0x50,
                0x51, 0x52, 0x53, 0x54, 0x55] : List Nat)) :
    decodeSubItem fuel d =
      some (none, { d with data := rest, bytesRead := d.bytesRead + 4 }) := by
  simp only [List.mem_cons, List.mem_singleton, not_or] at ht
  obtain ⟨h10, h20, h21, h30, h40, h50, h51, h52, h53, h54, h55, -⟩ := ht
  have h1 := Reader.readByte_cons d t (b :: hi :: lo :: rest) hdata (by omega)
  have h2 : Reader.skip { d with
      data := b :: hi :: lo :: rest,
      bytesRead := d.bytesRead + 1 } 1 =
      { d with data := hi :: lo :: rest, bytesRead := d.bytesRead + 1 + 1 } := by
    rw [Reader.skip_exact] <;> simp <;> omega
  have h3 := Reader.readUInt16_cons
    { d with
      data := hi :: lo :: rest,
      bytesRead := d.bytesRead + 1 + 1 }
    hi lo rest rfl (by simp; omega)
  simp only [decodeSubItem, h1, h2, h3, ItemTypeApplicationContext,
    ItemTypeAbstractSyntax, ItemTypeTransferSyntax,
    ItemTypePresentationContextRequest, ItemTypePresentationContextResponse,
    ItemTypeUserInformation, ItemTypeUserInformationMaximumLength,
    ItemTypeImplementationClassUID, ItemTypeAsynchronousOperationsWindow,
    ItemTypeRoleSelection, ItemTypeImplementationVersionName,
    h10, h20, h21, h30, h40, h50, h51, h52, h53, h54, h55,
    if_false, or_self]

/-- A sub-item decoding loop whose reader already sits at (or beyond) its
limit exits immediately. -/
theorem decodeSubItemLoop_done (fuel : Nat) (d : Reader)
    (acc : List (Option SubItem)) (h : d.limit ≤ d.bytesRead) :
    decodeSubItemLoop fuel d acc = some (acc, d) := by
  rw [decodeSubItemLoop.eq_def]
  simp only [if_pos h]

/-- Behaviour of `pushLimit` under an in-range request installs exactly
`bytesRead + n`. -/
theorem pushLimit_of_le (d : Reader) (n : Nat) (h : d.bytesRead + n ≤ d.limit) :
    d.pushLimit n =
      { d with stack := d.limit :: d.stack, limit := d.bytesRead + n } := by
  simp [Reader.pushLimit, Nat.min_eq_left h]

/-- Claim C2 amended witness: the amended theorem applied at the concrete
counterexample input. -/
theorem C2_witness :
    decodeSubItem 100 ⟨[0x60, 0, 0, 2, 0xAA, 0xBB], 0, 6, []⟩ =
      some (none, ⟨[0xAA, 0xBB], 0 + 4, 6, []⟩) :=
  C2_decodeSubItem_unknown_type_discarded 100 0x60 0 0 2 [0xAA, 0xBB]
    ⟨[0x60, 0, 0, 2, 0xAA, 0xBB], 0, 6, []⟩ rfl (by decide) (by decide)

/-! ## Claim C4 -/

/-- Claim C4 counterexample: a presentation-context item with the even
context ID 2 is decoded successfully — `decodeSubItem` returns the item
(with `ContextID = 2`) and no error value of any kind; the decoder has no
error channel and the parity violation is only logged. -/
theorem C4_cex_even_context_id_decodes :
    decodePresentationContextItem 100 ⟨[2, 0, 0, 0], 0, 8, []⟩ 0x20 4 =
      some (some (.presentationContext 0x20 2 0 []), ⟨[], 4, 8, []⟩) := by
  rw [decodePresentationContextItem.eq_def]
  simp [Reader.pushLimit, Reader.readByte, Reader.skip, Reader.advance,
    Reader.consumable, Reader.bytesLeft, Reader.popLimit, decodeSubItemLoop_done]

theorem C4_decodePresentationContextItem_even_id_accepted (fuel : Nat)
    (d : Reader) (t cid x r y : Nat) (rest : List Nat)
    (hdata : d.data = cid :: x :: r :: y :: rest)
    (hlim : d.bytesRead + 4 ≤ d.limit) :
    decodePresentationContextItem fuel d t 4 =
      some (some (.presentationContext t cid r []),
        { d with data := rest, bytesRead := d.bytesRead + 4 }) := by
  have hpush := pushLimit_of_le d 4 hlim
  have h1 : Reader.readByte { d with
      stack := d.limit :: d.stack,
      limit := d.bytesRead + 4 } =
      (some cid, { d with
        data := x :: r :: y :: rest,
        bytesRead := d.bytesRead + 1,
        stack := d.limit :: d.stack,
        limit := d.bytesRead + 4 }) := by
    rw [Reader.readByte_cons _ cid (x :: r :: y :: rest) (by simp [hdata])
      (by simp)]
  have h2 : Reader.skip { d with
      data := x :: r :: y :: rest,
      bytesRead := d.bytesRead + 1,
      stack := d.limit :: d.stack,
      limit := d.bytesRead + 4 } 1 =
      { d with
        data := r :: y :: rest,
        bytesRead := d.bytesRead + 1 + 1,
        stack := d.limit :: d.stack,
        limit := d.bytesRead + 4 } := by
    rw [Reader.skip_exact] <;> simp
  have h3 : Reader.readByte { d with
      data := r :: y :: rest,
      bytesRead := d.bytesRead + 1 + 1,
      stack := d.limit :: d.stack,
      limit := d.bytesRead + 4 } =
      (some r, { d with
        data := y :: rest,
        bytesRead := d.bytesRead + 1 + 1 + 1,
        stack := d.limit :: d.stack,
        limit := d.bytesRead + 4 }) := by
    rw [Reader.readByte_cons _ r (y :: rest) (by simp) (by simp)]
  have h4 : Reader.skip { d with
      data := y :: rest,
      bytesRead := d.bytesRead + 1 + 1 + 1,
      stack := d.limit :: d.stack,
      limit := d.bytesRead + 4 } 1 =
      { d with
        data := rest,
        bytesRead := d.bytesRead + 1 + 1 + 1 + 1,
        stack := d.limit :: d.stack,
        limit := d.bytesRead + 4 } := by
    rw [Reader.skip_exact] <;> simp
  have h5 := decodeSubItemLoop_done fuel
    { d with
      data := rest,
      bytesRead := d.bytesRead + 1 + 1 + 1 + 1,
      stack := d.limit :: d.stack,
      limit := d.bytesRead + 4 } []
    (by simp)
  rw [decodePresentationContextItem.eq_def]
  simp only [hpush, h1, h2, h3, h4, h5, Reader.popLimit, Option.getD_some]

theorem C4_witness :
    decodePresentationContextItem 100 ⟨[2, 0, 0, 0], 0, 4, []⟩ 0x20 4 =
      some (some (.presentationContext 0x20 2 0 []), ⟨[], 0 + 4, 4, []⟩) :=
  C4_decodePresentationContextItem_even_id_accepted 100
    ⟨[2, 0, 0, 0], 0, 4, []⟩ 0x20 2 0 0 0 [] rfl (by decide)

/-! ## Claim C7 -/

/-- Claim C7 (confirmed): every byte slice produced by `EncodePDU` is a
six-byte header — the PDU type code byte, a zero reserved byte, and a
big-endian u32 length — followed by exactly `length` payload bytes, with
`length` equal to the total output length minus 6.  (The size hypothesis
excludes payloads of 2^32 bytes or more, where the Go u32 conversion would
wrap.) -/
theorem C7_encodePDU_framing (pdu : PDU) (out : List Nat)
    (h : EncodePDU pdu = some out) (hsize : out.length < 4294967302) :
    6 ≤ out.length ∧
      out = pdu.typeByte :: 0 :: (u32be (out.length - 6) ++ out.drop 6) := by
  unfold EncodePDU at h
  cases hw : pdu.writePayload with
  | none => rw [hw] at h; exact absurd h (by simp)
  | some payload =>
    rw [hw] at h
    simp only [Option.some.injEq] at h
    subst h
    have hplen : payload.length < 4294967296 := by
      simp [u32be] at hsize; omega
    constructor
    · simp [u32be]
    · simp [u32be, Nat.mod_eq_of_lt hplen]

/-- Claim C7 witness: the framing theorem applied to the encoding of an
A-RELEASE-RQ PDU. -/
theorem C7_witness :
    6 ≤ ([5, 0, 0, 0, 0, 4, 0, 0, 0, 0] : List Nat).length ∧
      ([5, 0, 0, 0, 0, 4, 0, 0, 0, 0] : List Nat) =
        PDU.typeByte .aReleaseRq :: 0 ::
          (u32be (([5, 0, 0, 0, 0, 4, 0, 0, 0, 0] : List Nat).length - 6) ++
            ([5, 0, 0, 0, 0, 4, 0, 0, 0, 0] : List Nat).drop 6) :=
  C7_encodePDU_framing .aReleaseRq [5, 0, 0, 0, 0, 4, 0, 0, 0, 0] rfl (by decide)

/-! ## Claim C8 -/

/-- Claim C8 (confirmed): `PresentationDataValueItem.Write` emits a u32
length equal to `2 + len(Value)`, the context-ID byte, a header byte whose
bit 0 is set iff `Command` and bit 1 iff `Last`, then the value bytes; and
`ReadPresentationDataValueItem` inverts this exactly — reading `length - 2`
value bytes — so reading a written PDV returns the original item and leaves
the rest of the stream untouched. -/
theorem C8_pdv_write_read_roundtrip (v : PresentationDataValueItem)
    (rest : List Nat) (d : Reader)
    (hdata : d.data = v.write ++ rest)
    (hlim : d.bytesRead + (6 + v.value.length) ≤ d.limit)
    (hcid : v.contextID < 256)
    (hlen : v.value.length < 4294967294) :
    v.write = u32be (2 + v.value.length) ++
        v.contextID ::
        ((if v.command then 1 else 0) + (if v.last then 2 else 0)) :: v.value ∧
      ReadPresentationDataValueItem d =
        (v, { d with
          data := rest,
          bytesRead := d.bytesRead + (6 + v.value.length) }) := by
  obtain ⟨cid, cmd, lst, value⟩ := v
  simp only at hdata hlim hcid hlen
  have hmod : (2 + value.length) % 4294967296 = 2 + value.length :=
    Nat.mod_eq_of_lt (by omega)
  have hw : PresentationDataValueItem.write ⟨cid, cmd, lst, value⟩ =
      u32be (2 + value.length) ++ cid ::
        ((if cmd then 1 else 0) + (if lst then 2 else 0)) :: value := by
    simp [PresentationDataValueItem.write, hmod, Nat.mod_eq_of_lt hcid]
  refine ⟨hw, ?_⟩
  rw [hw] at hdata
  simp only [u32be, List.cons_append, List.nil_append] at hdata
  have h1 := Reader.readUInt32_cons d _ _ _ _
    (cid :: ((if cmd then 1 else 0) + (if lst then 2 else 0)) :: (value ++ rest))
    (by rw [hdata]) (by omega)
  have hval : (((2 + value.length) / 16777216 % 256 * 256 +
      (2 + value.length) / 65536 % 256) * 256 +
      (2 + value.length) / 256 % 256) * 256 + (2 + value.length) % 256 =
      2 + value.length := by
    have := u32be_decode (2 + value.length)
    omega
  have h2 := Reader.readByte_cons
    { d with
      data := cid :: ((if cmd then 1 else 0) + (if lst then 2 else 0)) ::
        (value ++ rest),
      bytesRead := d.bytesRead + 4 }
    cid (((if cmd then 1 else 0) + (if lst then 2 else 0)) :: (value ++ rest))
    rfl (by simp <;> omega)
  have h3 := Reader.readByte_cons
    { d with
      data := ((if cmd then 1 else 0) + (if lst then 2 else 0)) ::
        (value ++ rest),
      bytesRead := d.bytesRead + 4 + 1 }
    ((if cmd then 1 else 0) + (if lst then 2 else 0)) (value ++ rest)
    rfl (by simp <;> omega)
  have hn : (2 + value.length + 4294967294) % 4294967296 = value.length := by
    omega
  have h4 := Reader.readBytesGo_exact
    { d with
      data := value ++ rest,
      bytesRead := d.bytesRead + 4 + 1 + 1 }
    value.length (by simp <;> omega) (by simp)
  simp only [List.take_left, List.drop_left] at h4
  simp only [ReadPresentationDataValueItem, h1, hval, h2, h3, hn, h4,
    Option.getD_some, Nat.sub_self, List.replicate, List.append_nil]
  have hb : d.bytesRead + 4 + 1 + 1 + value.length =
      d.bytesRead + (6 + value.length) := by omega
  rw [hb]
  cases cmd <;> cases lst <;> simp <;> decide

/-- Claim C8 witness: the round-trip theorem applied to a concrete PDV with
context ID 7, command set, last clear, and a three-byte value, followed by
two extra stream bytes. -/
theorem C8_witness :
    PresentationDataValueItem.write ⟨7, true, false, [1, 2, 3]⟩ =
        u32be (2 + 3) ++ 7 :: 1 :: [1, 2, 3] ∧
      ReadPresentationDataValueItem
          ⟨PresentationDataValueItem.write ⟨7, true, false, [1, 2, 3]⟩ ++ [9, 9],
            0, 100, []⟩ =
        (⟨7, true, false, [1, 2, 3]⟩, ⟨[9, 9], 0 + (6 + 3), 100, []⟩) :=
  C8_pdv_write_read_roundtrip ⟨7, true, false, [1, 2, 3]⟩ [9, 9]
    ⟨PresentationDataValueItem.write ⟨7, true, false, [1, 2, 3]⟩ ++ [9, 9],
      0, 100, []⟩ rfl (by decide) (by decide) (by decide)

/-! ## Claim C3 -/

/-- The padded AE titles written by `AAssociate.WritePayload` are always
exactly 16 bytes long. -/
theorem fillString_length_16 (v : List Nat) : (fillString v 16).length = 16 := by
  unfold fillString
  split <;> simp <;> omega

/-- Claim C3 counterexample: for the sub-item
`AsynchronousOperationsWindowSubItem{MaxOpsInvoked = 1, MaxOpsPerformed = 2}`
the decoder applied to the encoder output returns
`{MaxOpsInvoked = 1, MaxOpsPerformed = 1}` — the decoder reads a single u16
and copies it into both fields — so `decode(encode(v)) ≠ v`. -/
theorem C3_cex_async_roundtrip_fails :
    SubItem.write (.asynchronousOperationsWindow 1 2) =
        some [0x53, 0, 0, 4, 0, 1, 0, 2] ∧
      decodeSubItem 100 ⟨[0x53, 0, 0, 4, 0, 1, 0, 2], 0, 8, []⟩ =
        some (some (.asynchronousOperationsWindow 1 1), ⟨[0, 2], 6, 8, []⟩) ∧
      SubItem.asynchronousOperationsWindow 1 1 ≠
        SubItem.asynchronousOperationsWindow 1 2 := by
  refine ⟨rfl, ?_, ?_⟩
  · simp only [decodeSubItem]
    rfl
  · intro h
    injection h with h1 h2
    exact absurd h2 (by decide)

/-- Behaviour of `EncodePDU` on an A-ASSOCIATE-RQ with no sub-items: the six-byte header
with length 68 followed by version, two reserved bytes, the two AE titles
space-padded (or truncated) to 16 bytes, and 32 reserved bytes. -/
theorem encodePDU_aAssociate_no_items (version : Nat) (called calling : List Nat)
    (hcd : called ≠ []) (hcg : calling ≠ []) :
    EncodePDU (.aAssociate 1 version called calling []) =
      some (1 :: 0 :: u32be 68 ++
        (u16be version ++ 0 :: 0 ::
          (fillString called 16 ++ (fillString calling 16 ++
            List.replicate 32 0)))) := by
  have hlen : (u16be version ++ [0, 0] ++ fillString called 16 ++
      fillString calling 16 ++ List.replicate 32 0).length = 68 := by
    simp [u16be, fillString_length_16]
  unfold EncodePDU PDU.writePayload
  simp only [writeSubItemList]
  rw [if_neg (by simp [hcd, hcg])]
  simp only [PDU.typeByte, List.append_nil, hlen]
  simp [u16be]

/-- Decoding the bytes produced by `encodePDU_aAssociate_no_items` yields the
A-ASSOCIATE PDU back with the AE titles in their padded 16-byte form. -/
theorem readPDU_of_encoded_aAssociate (fuel version : Nat)
    (called calling : List Nat) (hv : version < 65536) :
    ReadPDU fuel (1 :: 0 :: u32be 68 ++
        (u16be version ++ 0 :: 0 ::
          (fillString called 16 ++ (fillString calling 16 ++
            List.replicate 32 0)))) 100 =
      some (some (.aAssociate 1 version (fillString called 16)
        (fillString calling 16) []), none) := by
  have hc16 : (fillString called 16).length = 16 := fillString_length_16 called
  have hg16 : (fillString calling 16).length = 16 := fillString_length_16 calling
  have hdlen : (u16be version ++ 0 :: 0 ::
      (fillString called 16 ++ (fillString calling 16 ++
        List.replicate 32 0))).length = 68 := by
    simp [u16be, hc16, hg16]
  have htake : (u16be version ++ 0 :: 0 ::
      (fillString called 16 ++ (fillString calling 16 ++
        List.replicate 32 0))).take 68 =
      u16be version ++ 0 :: 0 ::
      (fillString called 16 ++ (fillString calling 16 ++
        List.replicate 32 0)) := by
    rw [List.take_of_length_le (by rw [hdlen])]
  have h1 := Reader.readUInt16_cons
    ⟨u16be version ++ 0 :: 0 ::
      (fillString called 16 ++ (fillString calling 16 ++
        List.replicate 32 0)), 0, 68, []⟩
    (version / 256 % 256) (version % 256)
    (0 :: 0 :: (fillString called 16 ++ (fillString calling 16 ++
      List.replicate 32 0)))
    (by simp [u16be]) (by simp)
  have h2 : Reader.skip ⟨0 :: 0 ::
      (fillString called 16 ++ (fillString calling 16 ++
        List.replicate 32 0)), 0 + 2, 68, []⟩ 2 =
      ⟨fillString called 16 ++ (fillString calling 16 ++
        List.replicate 32 0), 0 + 2 + 2, 68, []⟩ := by
    rw [Reader.skip_exact] <;> simp
  have h3 := Reader.readBytesGo_exact
    ⟨fillString called 16 ++ (fillString calling 16 ++
      List.replicate 32 0), 0 + 2 + 2, 68, []⟩ 16
    (by simp) (by simp [hc16])
  rw [List.take_left' hc16, List.drop_left' hc16] at h3
  have h4 := Reader.readBytesGo_exact
    ⟨fillString calling 16 ++ List.replicate 32 0, 0 + 2 + 2 + 16, 68, []⟩ 16
    (by simp) (by simp [hg16])
  rw [List.take_left' hg16, List.drop_left' hg16] at h4
  have h5 : Reader.skip ⟨List.replicate 32 0, 0 + 2 + 2 + 16 + 16, 68, []⟩ 32 =
      ⟨[], 0 + 2 + 2 + 16 + 16 + 32, 68, []⟩ := by
    rw [Reader.skip_exact] <;> simp
  have h6 : decodeAAssociateLoop fuel
      ⟨[], 0 + 2 + 2 + 16 + 16 + 32, 68, []⟩ [] =
      some ([], ⟨[], 0 + 2 + 2 + 16 + 16 + 32, 68, []⟩) := by
    rw [decodeAAssociateLoop.eq_def]
    simp
  have hval : version / 256 % 256 * 256 + version % 256 = version := by
    have := u16be_decode version
    omega
  unfold ReadPDU
  simp only [u32be, List.cons_append, List.nil_append]
  have hlen68 : ((0 * 256 + 0) * 256 + 0) * 256 + 68 = 68 := by norm_num
  simp only [hlen68]
  rw [if_neg (by norm_num)]
  rw [if_pos (Or.inl trivial)]
  unfold decodeAAssociate
  rw [htake]
  simp only [h1, h2, h3, h4, h5, h6, hval, Option.getD_some, Option.map_some]
  simp [Reader.bytesLeft]

/-- Claim C3, amended: `decode(encode(v)) = v` fails in general.  For an
`AsynchronousOperationsWindowSubItem{invoked, performed}` the composition
yields `{invoked, invoked}` (the decoder reads one u16 into both fields), so
the round trip holds iff the two fields are equal; for an `AAssociate` the
composition returns the AE titles space-padded (or truncated) to exactly 16
bytes, so the round trip holds only when the titles are already exactly 16
characters long. -/
theorem C3_roundtrip_corrected :
    (∀ fuel a b : Nat, a < 65536 → b < 65536 →
      SubItem.write (.asynchronousOperationsWindow a b) =
          some (encodeSubItemHeader ItemTypeAsynchronousOperationsWindow 4 ++
            u16be a ++ u16be b) ∧
        decodeSubItem fuel
          ⟨encodeSubItemHeader ItemTypeAsynchronousOperationsWindow 4 ++
            u16be a ++ u16be b, 0, 8, []⟩ =
          some (some (.asynchronousOperationsWindow a a), ⟨u16be b, 6, 8, []⟩) ∧
        (SubItem.asynchronousOperationsWindow a a =
          SubItem.asynchronousOperationsWindow a b ↔ a = b)) ∧
    (∀ fuel version : Nat, ∀ called calling : List Nat, version < 65536 →
      called ≠ [] → calling ≠ [] →
      ReadPDU fuel
          ((EncodePDU (.aAssociate 1 version called calling [])).getD []) 100 =
        some (some (.aAssociate 1 version (fillString called 16)
          (fillString calling 16) []), none)) := by
  constructor
  · intro fuel a b ha hb
    refine ⟨rfl, ?_, ?_⟩
    · have h1 := Reader.readByte_cons
        ⟨encodeSubItemHeader ItemTypeAsynchronousOperationsWindow 4 ++
          u16be a ++ u16be b, 0, 8, []⟩
        0x53 (0 :: 0 :: 4 :: (u16be a ++ u16be b))
        (by simp [encodeSubItemHeader, u16be, ItemTypeAsynchronousOperationsWindow])
        (by simp)
      have h2 : Reader.skip
          ⟨0 :: 0 :: 4 :: (u16be a ++ u16be b), 0 + 1, 8, []⟩ 1 =
          ⟨0 :: 4 :: (u16be a ++ u16be b), 0 + 1 + 1, 8, []⟩ := by
        rw [Reader.skip_exact] <;> simp
      have h3 := Reader.readUInt16_cons
        ⟨0 :: 4 :: (u16be a ++ u16be b), 0 + 1 + 1, 8, []⟩
        0 4 (u16be a ++ u16be b) rfl (by simp)
      have h4 := Reader.readUInt16_cons
        ⟨u16be a ++ u16be b, 0 + 1 + 1 + 2, 8, []⟩
        (a / 256 % 256) (a % 256) (u16be b) (by simp [u16be]) (by simp)
      have hva : a / 256 % 256 * 256 + a % 256 = a := by
        have := u16be_decode a
        omega
      simp only [decodeSubItem, h1, h2, h3, h4, hva, Option.getD_some,
        decodeAsynchronousOperationsWindowSubItem]
      rfl
    · constructor
      · intro h
        injection h
      · intro h
        rw [h]
  · intro fuel version called calling hv hcd hcg
    rw [encodePDU_aAssociate_no_items version called calling hcd hcg]
    exact readPDU_of_encoded_aAssociate fuel version called calling hv

/-- Claim C3 amended witness: both amended equations at concrete inputs —
the asynchronous-operations window with fields 1 and 2, and an A-ASSOCIATE
with one-byte AE titles. -/
theorem C3_witness :
    (SubItem.write (.asynchronousOperationsWindow 1 2) =
        some (encodeSubItemHeader ItemTypeAsynchronousOperationsWindow 4 ++
          u16be 1 ++ u16be 2) ∧
      decodeSubItem 100
        ⟨encodeSubItemHeader ItemTypeAsynchronousOperationsWindow 4 ++
          u16be 1 ++ u16be 2, 0, 8, []⟩ =
        some (some (.asynchronousOperationsWindow 1 1), ⟨u16be 2, 6, 8, []⟩) ∧
      (SubItem.asynchronousOperationsWindow 1 1 =
        SubItem.asynchronousOperationsWindow 1 2 ↔ 1 = 2)) ∧
    ReadPDU 100 ((EncodePDU (.aAssociate 1 1 [65] [66] [])).getD []) 100 =
      some (some (.aAssociate 1 1 (fillString [65] 16)
        (fillString [66] 16) []), none) :=
  ⟨(C3_roundtrip_corrected.1 100 1 2 (by decide) (by decide)),
   (C3_roundtrip_corrected.2 100 1 [65] [66] (by decide)
     (by decide) (by decide))⟩

/-! ## Claim C10 -/

/-- Claim C10 (confirmed): `ParseTransferSyntaxUID` never reaches its
panicking `default` branch: for every UID registry and every UID string it
produces either a (byte order, VR mode) pair or an error, because a
successful `CanonicalTransferSyntaxUID` only ever returns one of the four
standard transfer-syntax UIDs, all of which the switch covers. -/
theorem C10_parseTransferSyntaxUID_never_panics
    (lookup : String → Except String UIDInfo) (uid : String) :
    (ParseTransferSyntaxUID lookup uid).isSome = true := by
  unfold ParseTransferSyntaxUID CanonicalTransferSyntaxUID
  by_cases h : uid = ImplicitVRLittleEndian ∨ uid = ExplicitVRLittleEndian ∨
      uid = ExplicitVRBigEndian ∨ uid = DeflatedExplicitVRLittleEndian
  · rw [if_pos h]
    rcases h with h | h | h | h <;> subst h <;> decide
  · rw [if_neg h]
    cases hl : lookup uid with
    | error e => simp
    | ok entry =>
      by_cases ht : entry.uidType = TypeTransferSyntax
      · simp [ht] <;> decide
      · simp [ht]

/-! ## Claim C5 -/

/-- Claim C5 (confirmed): once the preflight lookups succeed,
`runCStoreOnAssociation` returns nil exactly when the received C-STORE
response carries status 0; a non-zero status yields an error whose message
contains the error comment (here "Foohah") of the status word; and a closed
upcall channel yields a non-nil error. -/
theorem C5_cstore_response_status (enc : Dataset → List Nat)
    (cm : contextManager) (messageID : Nat) (ds : Dataset)
    (iuid cuid : String) (ctx : contextManagerEntry)
    (hins : getElement ds MediaStorageSOPInstanceUID = .ok iuid)
    (hcls : getElement ds MediaStorageSOPClassUID = .ok cuid)
    (hctx : lookupByAbstractSyntaxUID cm cuid = .ok ctx) :
    (∀ (resp : CStoreRsp) (rest : List upcallEvent),
      (runCStoreOnAssociation enc
          ({ eventType := .data, command := some (.cstoreRsp resp) } :: rest)
          cm messageID ds).2 = GoResult.ok () ↔ resp.status.status = 0) ∧
    (∀ (resp : CStoreRsp) (rest : List upcallEvent),
      resp.status.status ≠ 0 → resp.status.errorComment = "Foohah" →
      ∃ pre post,
        (runCStoreOnAssociation enc
            ({ eventType := .data, command := some (.cstoreRsp resp) } :: rest)
            cm messageID ds).2 = GoResult.err (pre ++ "Foohah" ++ post)) ∧
    (∃ msg, (runCStoreOnAssociation enc [] cm messageID ds).2 =
      GoResult.err msg) := by
  refine ⟨?_, ?_, ?_⟩
  · intro resp rest
    unfold runCStoreOnAssociation
    simp only [hins, hcls, hctx]
    by_cases h : resp.status.status = 0 <;> simp [h]
  · intro resp rest hne hcomment
    unfold runCStoreOnAssociation
    simp only [hins, hcls, hctx]
    refine ⟨"dicom.cstore(" ++ cm.label ++ "): failed: " ++
      ("CStoreRsp(status: " ++ toString resp.status.status ++ " "), ")", ?_⟩
    simp [hne, CStoreRsp.render, hcomment, String.append_assoc]
  · unfold runCStoreOnAssociation
    simp only [hins, hcls, hctx]
    exact ⟨_, rfl⟩

/-- Claim C5 witness: the theorem applied to a concrete dataset, context
manager and response carrying `Status(0xC000, "Foohah")`. -/
theorem C5_witness :
    (∀ (resp : CStoreRsp) (rest : List upcallEvent),
      (runCStoreOnAssociation (fun _ => [])
          ({ eventType := .data, command := some (.cstoreRsp resp) } :: rest)
          ⟨"cs", [⟨1, "1.2.840.10008.5.1.4.1.1.7", "1.2.840.10008.1.2"⟩]⟩ 1
          ⟨[⟨MediaStorageSOPInstanceUID, ["1.2.3"]⟩,
            ⟨MediaStorageSOPClassUID, ["1.2.840.10008.5.1.4.1.1.7"]⟩]⟩).2 =
        GoResult.ok () ↔ resp.status.status = 0) ∧
    (∀ (resp : CStoreRsp) (rest : List upcallEvent),
      resp.status.status ≠ 0 → resp.status.errorComment = "Foohah" →
      ∃ pre post,
        (runCStoreOnAssociation (fun _ => [])
            ({ eventType := .data, command := some (.cstoreRsp resp) } :: rest)
            ⟨"cs", [⟨1, "1.2.840.10008.5.1.4.1.1.7", "1.2.840.10008.1.2"⟩]⟩ 1
            ⟨[⟨MediaStorageSOPInstanceUID, ["1.2.3"]⟩,
              ⟨MediaStorageSOPClassUID, ["1.2.840.10008.5.1.4.1.1.7"]⟩]⟩).2 =
          GoResult.err (pre ++ "Foohah" ++ post)) ∧
    (∃ msg,
      (runCStoreOnAssociation (fun _ => []) []
          ⟨"cs", [⟨1, "1.2.840.10008.5.1.4.1.1.7", "1.2.840.10008.1.2"⟩]⟩ 1
          ⟨[⟨MediaStorageSOPInstanceUID, ["1.2.3"]⟩,
            ⟨MediaStorageSOPClassUID, ["1.2.840.10008.5.1.4.1.1.7"]⟩]⟩).2 =
        GoResult.err msg) :=
  C5_cstore_response_status (fun _ => [])
    ⟨"cs", [⟨1, "1.2.840.10008.5.1.4.1.1.7", "1.2.840.10008.1.2"⟩]⟩ 1
    ⟨[⟨MediaStorageSOPInstanceUID, ["1.2.3"]⟩,
      ⟨MediaStorageSOPClassUID, ["1.2.840.10008.5.1.4.1.1.7"]⟩]⟩
    "1.2.3" "1.2.840.10008.5.1.4.1.1.7"
    ⟨1, "1.2.840.10008.5.1.4.1.1.7", "1.2.840.10008.1.2"⟩
    (by simp [getElement, MediaStorageSOPInstanceUID, MediaStorageSOPClassUID])
    (by simp [getElement, MediaStorageSOPInstanceUID, MediaStorageSOPClassUID])
    (by simp [lookupByAbstractSyntaxUID])

/-! ## Claim C6 -/

/-- Claim C6 (confirmed): when the dataset lacks a SOP instance UID element,
or lacks a SOP class UID element, or the SOP class UID has no negotiated
presentation context, `runCStoreOnAssociation` returns a non-nil error and
sends nothing on the downcall channel. -/
theorem C6_cstore_preflight_failures_send_nothing (enc : Dataset → List Nat)
    (upcallCh : List upcallEvent) (cm : contextManager)
    (messageID : Nat) (ds : Dataset)
    (h : (∃ e, getElement ds MediaStorageSOPInstanceUID = .err e) ∨
         (∃ s e, getElement ds MediaStorageSOPInstanceUID = .ok s ∧
                 getElement ds MediaStorageSOPClassUID = .err e) ∨
         (∃ s c e, getElement ds MediaStorageSOPInstanceUID = .ok s ∧
                   getElement ds MediaStorageSOPClassUID = .ok c ∧
                   lookupByAbstractSyntaxUID cm c = .err e)) :
    (runCStoreOnAssociation enc upcallCh cm messageID ds).1 = [] ∧
      ∃ msg, (runCStoreOnAssociation enc upcallCh cm messageID ds).2 =
        GoResult.err msg := by
  unfold runCStoreOnAssociation
  rcases h with ⟨e, he⟩ | ⟨s, e, hs, he⟩ | ⟨s, c, e, hs, hc, he⟩
  · simp only [he]; exact ⟨trivial, _, rfl⟩
  · simp only [hs, he]; exact ⟨trivial, _, rfl⟩
  · simp only [hs, hc, he]; exact ⟨trivial, _, rfl⟩

/-- Claim C6 witness: the theorem applied to an empty dataset (no SOP
instance UID element) with a closed upcall channel. -/
theorem C6_witness :
    (runCStoreOnAssociation (fun _ => []) [] ⟨"cs", []⟩ 1 ⟨[]⟩).1 = [] ∧
      ∃ msg, (runCStoreOnAssociation (fun _ => []) [] ⟨"cs", []⟩ 1 ⟨[]⟩).2 =
        GoResult.err msg :=
  C6_cstore_preflight_failures_send_nothing (fun _ => []) [] ⟨"cs", []⟩ 1 ⟨[]⟩
    (Or.inl ⟨"element not found", rfl⟩)

/-! ## Claim C9 -/

theorem ReaderStep.refl (d : Reader) : ReaderStep d d := ⟨rfl, rfl, rfl, le_rfl⟩

theorem ReaderStep.trans {a b c : Reader} (h1 : ReaderStep a b)
    (h2 : ReaderStep b c) : ReaderStep a c := by
  obtain ⟨l1, s1, v1, r1⟩ := h1
  obtain ⟨l2, s2, v2, r2⟩ := h2
  exact ⟨l2.trans l1, s2.trans s1, v2.trans v1, r1.trans r2⟩

/-- A step to an unchanged-limits state keeps the stream covered. -/
theorem ReaderStep.covered {d e : Reader} (h : ReaderStep d e)
    (hcov : d.covered) : e.covered := by
  obtain ⟨hl, hs, hv, -⟩ := h
  obtain ⟨h1, h2⟩ := hcov
  exact ⟨by rw [hl, hv]; exact h1, by rw [hs, hv]; exact fun l hm => h2 l hm⟩

theorem consumable_le_data (d : Reader) (n : Nat) :
    d.consumable n ≤ d.data.length := by
  simp [Reader.consumable]

theorem advance_step (d : Reader) (k : Nat) (h : k ≤ d.data.length) :
    ReaderStep d (d.advance k) := by
  refine ⟨rfl, rfl, ?_, by simp [Reader.advance]⟩
  simp [Reader.advance]
  omega

theorem readByte_step (d : Reader) : ReaderStep d (d.readByte).2 := by
  unfold Reader.readByte
  split
  · exact ReaderStep.refl d
  · cases hd : d.data with
    | nil => simp [hd]; exact ReaderStep.refl d
    | cons b rest =>
      simp only [hd]
      exact ⟨rfl, rfl, by simp [hd]; omega, by simp⟩

theorem skip_step (d : Reader) (n : Nat) : ReaderStep d (d.skip n) :=
  advance_step d _ (consumable_le_data d n)

theorem readBytesGo_step (d : Reader) (n : Nat) :
    ReaderStep d (d.readBytesGo n).2.2 :=
  advance_step d _ (consumable_le_data d n)

theorem readBytes_snd (d : Reader) (n : Nat) :
    (d.readBytes n).2 = (d.readBytesGo n).2.2 := rfl

theorem readBytes_step (d : Reader) (n : Nat) :
    ReaderStep d (d.readBytes n).2 := readBytesGo_step d n

theorem readUInt16_snd (d : Reader) :
    (d.readUInt16).2 = (d.readBytes 2).2 := by
  unfold Reader.readUInt16
  rcases d.readBytes 2 with ⟨_ | l, e⟩
  · rfl
  · rcases l with _ | ⟨b1, _ | ⟨b0, _ | ⟨c, t⟩⟩⟩ <;> rfl

theorem readUInt16_step (d : Reader) : ReaderStep d (d.readUInt16).2 := by
  rw [readUInt16_snd]
  exact readBytes_step d 2

theorem readUInt32_snd (d : Reader) :
    (d.readUInt32).2 = (d.readBytes 4).2 := by
  unfold Reader.readUInt32
  rcases d.readBytes 4 with ⟨_ | l, e⟩
  · rfl
  · rcases l with _ | ⟨b3, _ | ⟨b2, _ | ⟨b1, _ | ⟨b0, _ | ⟨c, t⟩⟩⟩⟩⟩ <;> rfl

theorem readUInt32_step (d : Reader) : ReaderStep d (d.readUInt32).2 := by
  rw [readUInt32_snd]
  exact readBytes_step d 4

theorem decodeSubItemWithName_step (d : Reader) (n : Nat) :
    ReaderStep d (decodeSubItemWithName d n).2 := readBytesGo_step d n

theorem decodeUserInformationMaximumLengthItem_step (d : Reader) (n : Nat) :
    ReaderStep d (decodeUserInformationMaximumLengthItem d n).2 := by
  unfold decodeUserInformationMaximumLengthItem
  have := readUInt32_step d
  rcases h : d.readUInt32 with ⟨v, e⟩
  rw [h] at this
  exact this

theorem decodeAsynchronousOperationsWindowSubItem_step (d : Reader) (n : Nat) :
    ReaderStep d (decodeAsynchronousOperationsWindowSubItem d n).2 := by
  unfold decodeAsynchronousOperationsWindowSubItem
  have := readUInt16_step d
  rcases h : d.readUInt16 with ⟨_ | v, e⟩ <;> rw [h] at this <;> exact this

theorem decodeRoleSelectionSubItem_step (d : Reader) (n : Nat) :
    ReaderStep d (decodeRoleSelectionSubItem d n).2 := by
  unfold decodeRoleSelectionSubItem
  have s1 := readUInt16_step d
  rcases h1 : d.readUInt16 with ⟨v1, e1⟩
  rw [h1] at s1
  have s2 := readBytesGo_step e1 (v1.getD 0)
  rcases h2 : e1.readBytesGo (v1.getD 0) with ⟨buf, ok, e2⟩
  rw [h2] at s2
  have s3 := readByte_step e2
  rcases h3 : e2.readByte with ⟨v3, e3⟩
  rw [h3] at s3
  have s4 := readByte_step e3
  rcases h4 : e3.readByte with ⟨v4, e4⟩
  rw [h4] at s4
  simp only [h2, h3, h4]
  exact ((s1.trans s2).trans s3).trans s4

theorem pushLimit_covered (d : Reader) (n : Nat) (hcov : d.covered) :
    (d.pushLimit n).covered := by
  obtain ⟨h1, h2⟩ := hcov
  refine ⟨?_, ?_⟩
  · simp [Reader.pushLimit]
    right; exact h1
  · simp only [Reader.pushLimit, List.mem_cons]
    rintro l (rfl | hm)
    · exact h1
    · exact h2 l hm

theorem popLimit_of_stack (e : Reader) (l : Nat) (s : List Nat)
    (h : e.stack = l :: s) :
    e.popLimit = { e with limit := l, stack := s } := by
  simp [Reader.popLimit, h]

theorem readByte_success (d : Reader)
    (hcov : d.limit ≤ d.bytesRead + d.data.length)
    (hlt : d.bytesRead < d.limit) :
    ∃ b rest, d.data = b :: rest ∧
      d.readByte = (some b,
        { d with data := rest, bytesRead := d.bytesRead + 1 }) := by
  cases hd : d.data with
  | nil => rw [hd] at hcov; simp at hcov; omega
  | cons b rest => exact ⟨b, rest, rfl, Reader.readByte_cons d b rest hd hlt⟩

/-- Joint termination of `decodeSubItem` and the shared sub-item loop on
covered readers: with fuel at least the number of bytes below the limit, the
fuel bound is never hit, every call returns, limits and stack are restored,
and `decodeSubItem` always consumes at least the header byte. -/
theorem decodeSubItem_term (fuel : Nat) :
    (∀ d : Reader, d.covered → d.bytesRead < d.limit →
      d.limit - d.bytesRead ≤ fuel + 1 →
      ∃ item e, decodeSubItem fuel d = some (item, e) ∧
        d.bytesRead + 1 ≤ e.bytesRead ∧ ReaderStep d e) ∧
    (∀ (d : Reader) (acc : List (Option SubItem)), d.covered →
      d.limit - d.bytesRead ≤ fuel →
      ∃ items e, decodeSubItemLoop fuel d acc = some (items, e) ∧
        ReaderStep d e) := by
  induction fuel using Nat.strong_induction_on with
  | _ fuel ih =>
  have hloop : ∀ (d : Reader) (acc : List (Option SubItem)), d.covered →
      d.limit - d.bytesRead ≤ fuel →
      ∃ items e, decodeSubItemLoop fuel d acc = some (items, e) ∧
        ReaderStep d e := by
    intro d acc hcov hfuel
    rw [decodeSubItemLoop.eq_def]
    by_cases hg : d.limit ≤ d.bytesRead
    · rw [if_pos hg]
      exact ⟨acc, d, rfl, ReaderStep.refl d⟩
    · rw [if_neg hg]
      push_neg at hg
      obtain ⟨g, rfl⟩ : ∃ g, fuel = g + 1 := ⟨fuel - 1, by omega⟩
      obtain ⟨item, e, hsub, hcons, hstep⟩ :=
        (ih g (by omega)).1 d hcov hg (by omega)
      obtain ⟨items, e2, hl2, hstep2⟩ :=
        (ih g (by omega)).2 e (acc ++ [item]) (hstep.covered hcov)
          (by obtain ⟨hl, -, -, -⟩ := hstep; omega)
      refine ⟨items, e2, ?_, hstep.trans hstep2⟩
      simp only [hsub, hl2]
  refine ⟨?_, hloop⟩
  intro d hcov hlt hfuel
  obtain ⟨b, rest, hdata, hrb⟩ := readByte_success d hcov.1 hlt
  have hstep1 : ReaderStep d { d with data := rest, bytesRead := d.bytesRead + 1 } :=
    ⟨rfl, rfl, by simp [hdata]; omega, by simp⟩
  have hstep2 := skip_step { d with data := rest, bytesRead := d.bytesRead + 1 } 1
  rcases h16 : (Reader.skip { d with data := rest, bytesRead := d.bytesRead + 1 } 1).readUInt16
    with ⟨v16, d3⟩
  have hstep3 := readUInt16_step
    (Reader.skip { d with data := rest, bytesRead := d.bytesRead + 1 } 1)
  rw [h16] at hstep3
  have hstep03 : ReaderStep d d3 := (hstep1.trans hstep2).trans hstep3
  have hcons : d.bytesRead + 1 ≤ d3.bytesRead := by
    have h23 := hstep2.trans hstep3
    obtain ⟨-, -, -, hr⟩ := h23
    simpa using hr
  rw [decodeSubItem.eq_def, hrb]
  simp only [h16]
  cases v16 with
  | none => exact ⟨none, d3, rfl, hcons, hstep03⟩
  | some length =>
    by_cases hb1 : b = ItemTypeApplicationContext
    · simp only [if_pos hb1]
      rcases hx : decodeSubItemWithName d3 length with ⟨nm, e⟩
      have hs := decodeSubItemWithName_step d3 length
      rw [hx] at hs
      simp only [hx]
      exact ⟨some (.applicationContext nm), e, rfl,
        le_trans hcons hs.2.2.2, hstep03.trans hs⟩
    · simp only [if_neg hb1]
      by_cases hb2 : b = ItemTypeAbstractSyntax
      · simp only [if_pos hb2]
        rcases hx : decodeSubItemWithName d3 length with ⟨nm, e⟩
        have hs := decodeSubItemWithName_step d3 length
        rw [hx] at hs
        simp only [hx]
        exact ⟨some (.abstractSyntax nm), e, rfl,
          le_trans hcons hs.2.2.2, hstep03.trans hs⟩
      · simp only [if_neg hb2]
        by_cases hb3 : b = ItemTypeTransferSyntax
        · simp only [if_pos hb3]
          rcases hx : decodeSubItemWithName d3 length with ⟨nm, e⟩
          have hs := decodeSubItemWithName_step d3 length
          rw [hx] at hs
          simp only [hx]
          exact ⟨some (.transferSyntax nm), e, rfl,
            le_trans hcons hs.2.2.2, hstep03.trans hs⟩
        · simp only [if_neg hb3]
          by_cases hb4 : b = ItemTypePresentationContextRequest ∨
              b = ItemTypePresentationContextResponse
          · simp only [if_pos hb4]
            -- decodePresentationContextItem fuel d3 b length
            rw [decodePresentationContextItem.eq_def]
            have hcov4 := pushLimit_covered d3 length (hstep03.covered hcov)
            rcases hra : (d3.pushLimit length).readByte with ⟨va, e5⟩
            have hsa := readByte_step (d3.pushLimit length)
            rw [hra] at hsa
            have hsb := skip_step e5 1
            rcases hrc : (e5.skip 1).readByte with ⟨vc, e7⟩
            have hsc := readByte_step (e5.skip 1)
            rw [hrc] at hsc
            have hsd := skip_step e7 1
            have hstep48 : ReaderStep (d3.pushLimit length) (e7.skip 1) :=
              ((hsa.trans hsb).trans hsc).trans hsd
            have hcov8 : (e7.skip 1).covered := hstep48.covered hcov4
            have hfuel8 : (e7.skip 1).limit - (e7.skip 1).bytesRead ≤ fuel := by
              obtain ⟨hl8, -, -, hr8⟩ := hstep48
              have hpl : (d3.pushLimit length).limit ≤ d3.limit := by
                simp [Reader.pushLimit]
              have hpb : (d3.pushLimit length).bytesRead = d3.bytesRead := rfl
              obtain ⟨hl03, -, -, -⟩ := hstep03
              omega
            obtain ⟨items, e9, hl9, hstep9⟩ := hloop (e7.skip 1) [] hcov8 hfuel8
            simp only [hra, hrc, hl9]
            have hstack9 : e9.stack = d3.limit :: d3.stack := by
              obtain ⟨-, hs9, -, -⟩ := hstep9
              obtain ⟨-, hs48, -, -⟩ := hstep48
              rw [hs9, hs48]
              rfl
            rw [popLimit_of_stack e9 d3.limit d3.stack hstack9]
            refine ⟨some (.presentationContext b (va.getD 0) (vc.getD 0) items),
              { e9 with limit := d3.limit, stack := d3.stack }, rfl, ?_, ?_⟩
            · have h49 := hstep48.trans hstep9
              obtain ⟨-, -, -, hr49⟩ := h49
              have hpb : (d3.pushLimit length).bytesRead = d3.bytesRead := rfl
              simp only []
              omega
            · have h49 := hstep48.trans hstep9
              obtain ⟨hl49, hs49, hv49, hr49⟩ := h49
              obtain ⟨hl03, hs03, hv03, hr03⟩ := hstep03
              refine ⟨by simpa using hl03, by simpa using hs03, ?_, ?_⟩
              · simp only []
                have : (d3.pushLimit length).bytesRead +
                    (d3.pushLimit length).data.length =
                    d3.bytesRead + d3.data.length := rfl
                omega
              · have hpb : (d3.pushLimit length).bytesRead = d3.bytesRead := rfl
                simp only []
                omega
          · simp only [if_neg hb4]
            by_cases hb5 : b = ItemTypeUserInformation
            · simp only [if_pos hb5]
              rw [decodeUserInformationItem.eq_def]
              have hcov4 := pushLimit_covered d3 length (hstep03.covered hcov)
              have hfuel4 : (d3.pushLimit length).limit -
                  (d3.pushLimit length).bytesRead ≤ fuel := by
                have hpl : (d3.pushLimit length).limit ≤ d3.limit := by
                  simp [Reader.pushLimit]
                have hpb : (d3.pushLimit length).bytesRead = d3.bytesRead := rfl
                obtain ⟨hl03, -, -, -⟩ := hstep03
                omega
              obtain ⟨items, e9, hl9, hstep9⟩ :=
                hloop (d3.pushLimit length) [] hcov4 hfuel4
              simp only [hl9]
              have hstack9 : e9.stack = d3.limit :: d3.stack := by
                obtain ⟨-, hs9, -, -⟩ := hstep9
                rw [hs9]
                rfl
              rw [popLimit_of_stack e9 d3.limit d3.stack hstack9]
              refine ⟨some (.userInformation items),
                { e9 with limit := d3.limit, stack := d3.stack }, rfl, ?_, ?_⟩
              · obtain ⟨-, -, -, hr9⟩ := hstep9
                have hpb : (d3.pushLimit length).bytesRead = d3.bytesRead := rfl
                simp only []
                omega
              · obtain ⟨hl9e, hs9e, hv9e, hr9e⟩ := hstep9
                obtain ⟨hl03, hs03, hv03, hr03⟩ := hstep03
                refine ⟨by simpa using hl03, by simpa using hs03, ?_, ?_⟩
                · simp only []
                  have : (d3.pushLimit length).bytesRead +
                      (d3.pushLimit length).data.length =
                      d3.bytesRead + d3.data.length := rfl
                  omega
                · have hpb : (d3.pushLimit length).bytesRead = d3.bytesRead := rfl
                  simp only []
                  omega
            · simp only [if_neg hb5]
              by_cases hb6 : b = ItemTypeUserInformationMaximumLength
              · simp only [if_pos hb6]
                rcases hx : decodeUserInformationMaximumLengthItem d3 length
                  with ⟨itm, e⟩
                have hs := decodeUserInformationMaximumLengthItem_step d3 length
                rw [hx] at hs
                simp only [hx]
                exact ⟨some itm, e, rfl, le_trans hcons hs.2.2.2,
                  hstep03.trans hs⟩
              · simp only [if_neg hb6]
                by_cases hb7 : b = ItemTypeImplementationClassUID
                · simp only [if_pos hb7]
                  rcases hx : decodeSubItemWithName d3 length with ⟨nm, e⟩
                  have hs := decodeSubItemWithName_step d3 length
                  rw [hx] at hs
                  simp only [hx]
                  exact ⟨some (.implementationClassUID nm), e, rfl,
                    le_trans hcons hs.2.2.2, hstep03.trans hs⟩
                · simp only [if_neg hb7]
                  by_cases hb8 : b = ItemTypeAsynchronousOperationsWindow
                  · simp only [if_pos hb8]
                    rcases hx : decodeAsynchronousOperationsWindowSubItem d3 length
                      with ⟨itm, e⟩
                    have hs := decodeAsynchronousOperationsWindowSubItem_step d3 length
                    rw [hx] at hs
                    simp only [hx]
                    exact ⟨itm, e, rfl, le_trans hcons hs.2.2.2,
                      hstep03.trans hs⟩
                  · simp only [if_neg hb8]
                    by_cases hb9 : b = ItemTypeRoleSelection
                    · simp only [if_pos hb9]
                      rcases hx : decodeRoleSelectionSubItem d3 length with ⟨itm, e⟩
                      have hs := decodeRoleSelectionSubItem_step d3 length
                      rw [hx] at hs
                      simp only [hx]
                      exact ⟨some itm, e, rfl, le_trans hcons hs.2.2.2,
                        hstep03.trans hs⟩
                    · simp only [if_neg hb9]
                      by_cases hb10 : b = ItemTypeImplementationVersionName
                      · simp only [if_pos hb10]
                        rcases hx : decodeSubItemWithName d3 length with ⟨nm, e⟩
                        have hs := decodeSubItemWithName_step d3 length
                        rw [hx] at hs
                        simp only [hx]
                        exact ⟨some (.implementationVersionName nm), e, rfl,
                          le_trans hcons hs.2.2.2, hstep03.trans hs⟩
                      · simp only [if_neg hb10]
                        exact ⟨none, d3, rfl, hcons, hstep03⟩

/-- Claim C9 counterexample: on a stream truncated before the declared item
length — here an empty stream with a user-information item declaring length
4 — `decodeUserInformationItem` never returns: each loop iteration calls
`decodeSubItem`, which fails to read the type byte without consuming
anything, appends nil, and leaves `BytesLeftUntilLimit` unchanged, so the
loop condition holds forever. -/
theorem C9_cex_truncated_stream_diverges :
    decodeUserInformationItemDiverges ⟨[], 0, 100, []⟩ 4 := by
  intro fuel
  have hloop : ∀ (f : Nat) (acc : List (Option SubItem)),
      decodeSubItemLoop f ⟨[], 0, 4, [100]⟩ acc = none := by
    intro f
    induction f with
    | zero =>
      intro acc
      rw [decodeSubItemLoop.eq_def]
      simp
    | succ g ihg =>
      intro acc
      rw [decodeSubItemLoop.eq_def]
      have hsub : decodeSubItem g ⟨[], 0, 4, [100]⟩ =
          some (none, ⟨[], 0, 4, [100]⟩) := by
        rw [decodeSubItem.eq_def]
        rfl
      simp [hsub, ihg]
  rw [decodeUserInformationItem.eq_def]
  have hpush : Reader.pushLimit ⟨[], 0, 100, []⟩ 4 = ⟨[], 0, 4, [100]⟩ := by
    simp [Reader.pushLimit]
  rw [hpush, hloop fuel []]

/-- Claim C9, amended: `decodeUserInformationItem` returns for every input
stream whose data reaches the installed limits (in particular for streams
containing unrecognised sub-item types, whose unconsumed declared payload is
simply re-parsed as further items), given fuel at least the declared length;
on a stream truncated before the pushed limit, however, the loop never exits
(see the divergence counterexample). -/
theorem C9_decodeUserInformationItem_terminates (fuel length : Nat)
    (d : Reader) (hcov : d.covered) (hfuel : length ≤ fuel) :
    ∃ out, decodeUserInformationItem fuel d length = some out := by
  rw [decodeUserInformationItem.eq_def]
  have hcov4 := pushLimit_covered d length hcov
  have hfuel4 : (d.pushLimit length).limit -
      (d.pushLimit length).bytesRead ≤ fuel := by
    have hle : (d.pushLimit length).limit ≤ d.bytesRead + length :=
      Nat.min_le_left _ _
    have hpb : (d.pushLimit length).bytesRead = d.bytesRead := rfl
    omega
  obtain ⟨items, e, hl, -⟩ :=
    (decodeSubItem_term fuel).2 (d.pushLimit length) [] hcov4 hfuel4
  simp only [hl]
  exact ⟨_, rfl⟩

/-- Claim C9 amended witness: the termination theorem applied to a
four-byte covered stream whose single sub-item has the unrecognised type
0x60. -/
theorem C9_witness :
    ∃ out, decodeUserInformationItem 4 ⟨[0x60, 0, 0, 0], 0, 4, []⟩ 4 =
      some out :=
  C9_decodeUserInformationItem_terminates 4 4 ⟨[0x60, 0, 0, 0], 0, 4, []⟩
    (by decide) (by decide)

end NetDicom
